import Mathlib

/-!
Verification of the ton-wallet-switcher wallet manager.

The program keeps a `Config` record (wallet directory root, name of the
currently active wallet, and a map from wallet name to description) and
manages wallet directories inside the root by renaming one of them into a
reserved slot directory named `data`.

The embedding below follows the Go source (`main.go`, with the `Remove`
subcommand present in the latest revision):
  - Go maps become association lists over `String` keys with `alookup`,
    `ainsert` (update in place or append) and `aerase`;
  - the filesystem, always viewed relative to the wallets root, becomes an
    association list from entry name to `Entry` (directory flag, marker-file
    flag, and an identity token used to state round-trip properties);
  - `os.Rename` becomes `rename`, failing with `notExist` when the source is
    missing and with `targetExists` when the destination already exists (a
    wallet directory is non-empty, so renaming onto it fails on POSIX);
    renaming a path onto itself succeeds as a no-op;
  - interactive input becomes a finite `List String`; running out of input
    models the scanner failure path, which aborts the process (`fatalScan`);
  - every operation returns the final in-memory record, the filesystem and an
    optional error.  The caller persists the record only when no error is
    returned, so the state-machine transition keeps the old record (but the
    new filesystem) whenever an operation fails.
-/

namespace TonWalletSwitcher

/-! ### Association lists standing in for Go maps and directory listings -/

def alookup {α : Type} : List (String × α) → String → Option α
  | [], _ => none
  | (k, v) :: rest, j => if j = k then some v else alookup rest j

def aerase {α : Type} : List (String × α) → String → List (String × α)
  | [], _ => []
  | (k, v) :: rest, j => if k = j then aerase rest j else (k, v) :: aerase rest j

def ainsert {α : Type} : List (String × α) → String → α → List (String × α)
  | [], k, v => [(k, v)]
  | (k', v') :: rest, k, v =>
      if k' = k then (k, v) :: rest else (k', v') :: ainsert rest k v

/-! ### Data model -/

/-- One entry of the wallets root directory: whether it is a directory,
whether it contains the `salt` marker file, and an identity token letting us
state that a rename moved the very same directory. -/
structure Entry where
  isDir : Bool
  hasSalt : Bool
  ident : Nat
deriving DecidableEq

/-- The wallets root directory, as a finite map from entry name to entry. -/
abbrev FS := List (String × Entry)

/-- The persisted record (Go struct `Config`): wallet directory root, name of
the currently active wallet (`CurrentWallet`, empty when none), and the map
from wallet name to description (`Wallets`). -/
structure Config where
  walletsDir : String
  currentWallet : String
  wallets : List (String × String)
deriving DecidableEq

/-- The reserved active-slot directory name (Go `currentWalletDirName`). -/
def currentWalletDirName : String := "data"

/-- Failure modes of `os.Rename` as used by the program. -/
inductive RenErr where
  | notExist
  | targetExists
deriving DecidableEq

/-- Errors an operation can report.  The Go code returns formatted error
values; we keep their kind and arguments.  `fatalScan` stands for the
process-aborting path taken when reading a line of input fails. -/
inductive Err where
  | alreadyActive (name : String)
  | notFound (name : String)
  | notADirectory (name : String)
  | notAWalletDirectory (name : String)
  | aborted
  | renameFail (old new : String) (e : RenErr)
  | fatalScan
deriving DecidableEq

/-- Result of a top-level operation: final in-memory record, filesystem and
optional error. -/
structure OpRes where
  config : Config
  fs : FS
  err : Option Err
deriving DecidableEq

/-- Result of the input-consuming helper `addWallet` (no filesystem access). -/
structure AddRes where
  config : Config
  input : List String
  err : Option Err
deriving DecidableEq

/-! ### Filesystem primitives -/

/-- `os.Rename old new` relative to the wallets root.  Renaming a missing
source fails with `notExist`; renaming onto an existing distinct entry fails
with `targetExists` (wallet directories are non-empty); renaming a present
path onto itself is a successful no-op. -/
def rename (fs : FS) (old new : String) : Except RenErr FS :=
  match alookup fs old with
  | none => .error .notExist
  | some e =>
      if old = new then .ok fs
      else if (alookup fs new).isSome then .error .targetExists
      else .ok (ainsert (aerase fs old) new e)

/-- `isWalletDir`: the named entry exists, is a directory and contains the
`salt` marker file. -/
def isWalletDir (fs : FS) (name : String) : Bool :=
  match alookup fs name with
  | some e => e.isDir && e.hasSalt
  | none => false

/-- `getWallets`: names of the wallet directories in the root, in enumeration
order (the order of the association list). -/
def getWallets (fs : FS) : List String :=
  (fs.filter fun p => p.2.isDir && p.2.hasSalt).map Prod.fst

/-- `os.RemoveAll` on a single entry name; removing a missing entry is fine. -/
def removeAll (fs : FS) (name : String) : FS :=
  aerase fs name

/-! ### Interactive helpers -/

/-- The naming loop shared by `addWallet` and `Edit`: read a line, replace an
empty answer by the default, accept any name other than the reserved slot
name, otherwise ask again.  Running out of input means the scanner failed. -/
def nameLoop (deflt : String) : List String → Option (String × List String)
  | [] => none
  | s :: rest =>
      let n := if s = "" then deflt else s
      if n = currentWalletDirName then nameLoop deflt rest else some (n, rest)

/-- Go `addWallet`: possibly prompt for a wallet name (only when the directory
is the reserved slot directory), optionally make that wallet current, then
prompt for a description and store the entry in the map. -/
def addWallet (c : Config) (dirName : String) (changeCurrentWallet : Bool)
    (input : List String) : AddRes :=
  match (if dirName = currentWalletDirName then nameLoop dirName input
         else some (dirName, input)) with
  | none => ⟨c, [], some .fatalScan⟩
  | some (walletName, input1) =>
      let c1 := if changeCurrentWallet ∧ dirName = currentWalletDirName
                then { c with currentWallet := walletName } else c
      match input1 with
      | [] => ⟨c1, [], some .fatalScan⟩
      | d :: input2 =>
          ⟨{ c1 with wallets := ainsert c1.wallets walletName d }, input2, none⟩

/-! ### Operations -/

/-- Go `Switch`: refuse switching to the already-current wallet, refuse a name
that is not a wallet, move the active-slot directory back to the current
wallet's own name, move the requested wallet's directory into the active slot
(tolerating a missing source), and record the new current wallet. -/
def Switch (c : Config) (fs : FS) (walletName : String) : OpRes :=
  if c.currentWallet = walletName then ⟨c, fs, some (.alreadyActive walletName)⟩
  else if (alookup c.wallets walletName).isNone then ⟨c, fs, some (.notFound walletName)⟩
  else
    match (if c.currentWallet = "" then Except.ok fs
           else rename fs currentWalletDirName c.currentWallet) with
    | .error e => ⟨c, fs, some (.renameFail currentWalletDirName c.currentWallet e)⟩
    | .ok fs1 =>
        match rename fs1 walletName currentWalletDirName with
        | .error .notExist => ⟨{ c with currentWallet := walletName }, fs1, none⟩
        | .error .targetExists =>
            ⟨c, fs1, some (.renameFail walletName currentWalletDirName .targetExists)⟩
        | .ok fs2 => ⟨{ c with currentWallet := walletName }, fs2, none⟩

/-- Go `switchToFirstWallet`: switch to the first wallet of the map's
enumeration order, if any. -/
def switchToFirstWallet (c : Config) (fs : FS) : OpRes :=
  match c.wallets with
  | [] => ⟨c, fs, none⟩
  | (k, _) :: _ => Switch c fs k

/-- The map transformation performed at the end of Go `Edit`: store the entry
under the new name first, then drop the old key when the name changed. -/
def editApply (m : List (String × String)) (walletName newWalletName d : String) :
    List (String × String) :=
  let m1 := ainsert m newWalletName d
  if walletName = newWalletName then m1 else aerase m1 walletName

/-- Go `Edit`: check the wallet exists, prompt for a new name (default: keep,
must differ from the reserved slot name) and a new description (default:
keep).  The active wallet is renamed only in the record; a non-active wallet
whose name changed is renamed on disk, failing the operation if the rename
fails.  Finally the map entry is moved. -/
def Edit (c : Config) (fs : FS) (input : List String) (walletName : String) : OpRes :=
  if (alookup c.wallets walletName).isNone then ⟨c, fs, some (.notFound walletName)⟩
  else
    match nameLoop walletName input with
    | none => ⟨c, fs, some .fatalScan⟩
    | some (newWalletName, input1) =>
        match input1 with
        | [] => ⟨c, fs, some .fatalScan⟩
        | dRaw :: _ =>
            let newDescription :=
              if dRaw = "" then (alookup c.wallets walletName).getD "" else dRaw
            let newWallets := editApply c.wallets walletName newWalletName newDescription
            if c.currentWallet = walletName then
              ⟨{ c with currentWallet := newWalletName, wallets := newWallets }, fs, none⟩
            else if newWalletName = walletName then
              ⟨{ c with wallets := newWallets }, fs, none⟩
            else
              match rename fs walletName newWalletName with
              | .error e => ⟨c, fs, some (.renameFail walletName newWalletName e)⟩
              | .ok fs1 => ⟨{ c with wallets := newWallets }, fs1, none⟩

/-- Go `Add`: when the named directory exists it must be a directory holding
the marker file; then register it through `addWallet` (without touching the
current wallet) and finish by switching to the directory name. -/
def Add (c : Config) (fs : FS) (input : List String) (walletDirName : String) : OpRes :=
  let proceed : OpRes :=
    match addWallet c walletDirName false input with
    | ⟨c1, _, none⟩ => Switch c1 fs walletDirName
    | ⟨c1, _, some e⟩ => ⟨c1, fs, some e⟩
  match alookup fs walletDirName with
  | some e =>
      if ¬ e.isDir then ⟨c, fs, some (.notADirectory walletDirName)⟩
      else if ¬ isWalletDir fs walletDirName then
        ⟨c, fs, some (.notAWalletDirectory walletDirName)⟩
      else proceed
  | none => proceed

/-- Go `Forget`: check the wallet exists.  Forgetting the active wallet moves
the active-slot directory back under the wallet's own name (tolerating a
missing slot directory), drops the map entry, clears the current wallet and
switches to the first remaining wallet if any; forgetting a non-active wallet
only drops the map entry. -/
def Forget (c : Config) (fs : FS) (walletName : String) : OpRes :=
  if (alookup c.wallets walletName).isNone then ⟨c, fs, some (.notFound walletName)⟩
  else if c.currentWallet = walletName then
    match rename fs currentWalletDirName walletName with
    | .error .targetExists =>
        ⟨c, fs, some (.renameFail currentWalletDirName walletName .targetExists)⟩
    | .error .notExist =>
        switchToFirstWallet
          { c with wallets := aerase c.wallets walletName, currentWallet := "" } fs
    | .ok fs1 =>
        switchToFirstWallet
          { c with wallets := aerase c.wallets walletName, currentWallet := "" } fs1
  else
    ⟨{ c with wallets := aerase c.wallets walletName }, fs, none⟩

/-- Go `Remove`: check the wallet exists, ask for confirmation; on the exact
answer `yes` perform `Forget` and then delete the wallet's directory tree
(tolerating a missing one); on any other answer fail with `aborted`. -/
def Remove (c : Config) (fs : FS) (input : List String) (walletName : String) : OpRes :=
  if (alookup c.wallets walletName).isNone then ⟨c, fs, some (.notFound walletName)⟩
  else
    match input with
    | [] => ⟨c, fs, some .fatalScan⟩
    | confirmation :: _ =>
        if confirmation = "yes" then
          match Forget c fs walletName with
          | ⟨c1, fs1, none⟩ => ⟨c1, removeAll fs1 walletName, none⟩
          | r => r
        else ⟨c, fs, some .aborted⟩

/-- The per-directory loop of Go `Init`, registering each discovered wallet
directory through `addWallet` with `changeCurrentWallet` set. -/
def initLoop (c : Config) : List String → List String → AddRes
  | [], input => ⟨c, input, none⟩
  | dirName :: rest, input =>
      match addWallet c dirName true input with
      | ⟨c1, input1, none⟩ => initLoop c1 rest input1
      | r => r

/-- Go `Init`: rebuild the wallet map from the directories found in the root,
then, when no reserved-slot directory made a wallet current, switch to the
first wallet of the map if any. -/
def Init (c : Config) (fs : FS) (input : List String) : OpRes :=
  let c0 : Config := { c with wallets := [], currentWallet := "" }
  match initLoop c0 (getWallets fs) input with
  | ⟨c1, _, none⟩ =>
      if c1.currentWallet = "" then switchToFirstWallet c1 fs else ⟨c1, fs, none⟩
  | ⟨c1, _, some e⟩ => ⟨c1, fs, some e⟩

/-! ### The record invariant and the operation state machine -/

/-- The record invariant of the spec: the active wallet is either empty or a
key of the wallet map, it never equals the reserved slot name, and the
reserved slot name is never a key of the wallet map. -/
def RecordInv (c : Config) : Prop :=
  (c.currentWallet = "" ∨ (alookup c.wallets c.currentWallet).isSome) ∧
  c.currentWallet ≠ currentWalletDirName ∧
  alookup c.wallets currentWalletDirName = none

instance (c : Config) : Decidable (RecordInv c) := by
  unfold RecordInv
  infer_instance

/-- One invocation of the program: an operation together with the interactive
input it will read. -/
inductive Op where
  | opInit (input : List String)
  | opSwitch (name : String)
  | opEdit (input : List String) (name : String)
  | opAdd (input : List String) (dirName : String)
  | opForget (name : String)
  | opRemove (input : List String) (name : String)
deriving DecidableEq

def runOp (o : Op) (c : Config) (fs : FS) : OpRes :=
  match o with
  | .opInit input => Init c fs input
  | .opSwitch name => Switch c fs name
  | .opEdit input name => Edit c fs input name
  | .opAdd input dirName => Add c fs input dirName
  | .opForget name => Forget c fs name
  | .opRemove input name => Remove c fs input name

/-- Effect of one program invocation on the persisted state.  On success the
caller persists the updated record; on any error the process exits without
persisting it, but filesystem changes already performed remain. -/
def stepResult (o : Op) (c : Config) (fs : FS) : Config × FS :=
  let r := runOp o c fs
  match r.err with
  | none => (r.config, r.fs)
  | some _ => (c, r.fs)

/-- Transition relation: some invocation with some user input turns state `s`
into state `s'`. -/
def Step (s s' : Config × FS) : Prop :=
  ∃ o, stepResult o s.1 s.2 = s'

/-! ### Basic lemmas about the association-list operations -/

theorem alookup_ainsert_self {α : Type} (m : List (String × α)) (k : String) (v : α) :
    alookup (ainsert m k v) k = some v := by
  induction m with
  | nil => simp [ainsert, alookup]
  | cons p rest ih =>
      obtain ⟨k', v'⟩ := p
      by_cases hk : k' = k
      · simp [ainsert, hk, alookup]
      · have hk2 : ¬ k = k' := fun h => hk h.symm
        simp [ainsert, hk, alookup, hk2, ih]

theorem alookup_ainsert_ne {α : Type} (m : List (String × α)) (k j : String) (v : α)
    (h : j ≠ k) : alookup (ainsert m k v) j = alookup m j := by
  induction m with
  | nil => simp [ainsert, alookup, h]
  | cons p rest ih =>
      obtain ⟨k', v'⟩ := p
      by_cases hk : k' = k
      · subst hk
        simp [ainsert, alookup, h]
      · by_cases hj : j = k' <;> simp [ainsert, alookup, hk, hj, ih]

theorem alookup_ainsert {α : Type} (m : List (String × α)) (k j : String) (v : α) :
    alookup (ainsert m k v) j = if j = k then some v else alookup m j := by
  by_cases h : j = k
  · subst h; simp [alookup_ainsert_self]
  · simp [h, alookup_ainsert_ne m k j v h]

theorem alookup_aerase_self {α : Type} (m : List (String × α)) (k : String) :
    alookup (aerase m k) k = none := by
  induction m with
  | nil => simp [aerase, alookup]
  | cons p rest ih =>
      obtain ⟨k', v'⟩ := p
      by_cases hk : k' = k
      · simp [aerase, hk, ih]
      · have hk2 : ¬ k = k' := fun h => hk h.symm
        simp [aerase, alookup, hk, hk2, ih]

theorem alookup_aerase_ne {α : Type} (m : List (String × α)) (k j : String)
    (h : j ≠ k) : alookup (aerase m k) j = alookup m j := by
  induction m with
  | nil => simp [aerase]
  | cons p rest ih =>
      obtain ⟨k', v'⟩ := p
      by_cases hk : k' = k
      · subst hk
        simp [aerase, alookup, h, ih]
      · by_cases hj : j = k' <;> simp [aerase, alookup, hk, hj, ih]

theorem alookup_aerase {α : Type} (m : List (String × α)) (k j : String) :
    alookup (aerase m k) j = if j = k then none else alookup m j := by
  by_cases h : j = k
  · subst h; simp [alookup_aerase_self]
  · simp [h, alookup_aerase_ne m k j h]

theorem ainsert_self {α : Type} [DecidableEq α] (m : List (String × α)) (k : String) (v : α)
    (h : alookup m k = some v) : ainsert m k v = m := by
  induction m with
  | nil => simp [alookup] at h
  | cons p rest ih =>
      obtain ⟨k', v'⟩ := p
      by_cases hk : k = k'
      · subst hk
        simp [alookup] at h
        simp [ainsert, h]
      · have hk' : ¬ k' = k := fun h' => hk h'.symm
        simp [alookup, hk] at h
        simp [ainsert, hk', ih h]

theorem nameLoop_ne (deflt : String) (input : List String) (n : String)
    (rest : List String) (h : nameLoop deflt input = some (n, rest)) :
    n ≠ currentWalletDirName := by
  induction input with
  | nil => simp [nameLoop] at h
  | cons s tl ih =>
      by_cases hc : (if s = "" then deflt else s) = currentWalletDirName
      · simp only [nameLoop, hc, if_pos] at h
        exact ih h
      · simp only [nameLoop, if_neg hc] at h
        obtain ⟨rfl, rfl⟩ := h
        exact hc

theorem alookup_editApply (m : List (String × String)) (name nn D j : String) :
    alookup (editApply m name nn D) j =
      if name ≠ nn ∧ j = name then none
      else if j = nn then some D
      else alookup m j := by
  by_cases hne : name = nn
  · subst hne
    simp [editApply, alookup_ainsert]
  · by_cases hj : j = name
    · subst hj
      simp [editApply, hne, alookup_aerase]
    · simp [editApply, hne, hj, alookup_aerase, alookup_ainsert]

/-! ### Lemmas about `Switch` -/

theorem switch_ok_result (c : Config) (fs : FS) (name : String)
    (h : (Switch c fs name).err = none) :
    (Switch c fs name).config = { c with currentWallet := name } ∧
    (alookup c.wallets name).isSome ∧ c.currentWallet ≠ name := by
  by_cases h1 : c.currentWallet = name
  · simp [Switch, h1] at h
  · by_cases h2 : (alookup c.wallets name).isNone
    · simp [Switch, h1, h2] at h
    · have hmem : (alookup c.wallets name).isSome := by
        rcases hv : alookup c.wallets name with _ | v
        · rw [hv] at h2; simp at h2
        · simp
      refine ⟨?_, hmem, h1⟩
      unfold Switch at h ⊢
      rw [if_neg h1, if_neg h2] at h ⊢
      split at h
      · simp at h
      · split at h
        · rfl
        · simp at h
        · rfl

theorem switch_preserves_inv (c : Config) (fs : FS) (name : String)
    (hI : RecordInv c) (h : (Switch c fs name).err = none) :
    RecordInv (Switch c fs name).config := by
  obtain ⟨hcfg, hmem, _⟩ := switch_ok_result c fs name h
  rw [hcfg]
  refine ⟨Or.inr (by simpa using hmem), ?_, by simpa using hI.2.2⟩
  intro hd
  simp only at hd
  rw [hd, hI.2.2] at hmem
  simp at hmem

theorem switchToFirstWallet_preserves_inv (c : Config) (fs : FS)
    (hI : RecordInv c) (h : (switchToFirstWallet c fs).err = none) :
    RecordInv (switchToFirstWallet c fs).config := by
  rcases hw : c.wallets with _ | ⟨⟨k, v⟩, rest⟩
  · simpa [switchToFirstWallet, hw] using hI
  · simp only [switchToFirstWallet, hw] at h ⊢
    exact switch_preserves_inv c fs k hI h

/-! ### Lemmas about `addWallet` -/

theorem recordInv_ainsert_keep (c : Config) (n d : String)
    (hn : n ≠ currentWalletDirName) (hI : RecordInv c) :
    RecordInv { c with wallets := ainsert c.wallets n d } := by
  have hdata : currentWalletDirName ≠ n := fun hx => hn hx.symm
  refine ⟨?_, hI.2.1, ?_⟩
  · rcases hI.1 with hcur | hcur
    · exact Or.inl hcur
    · refine Or.inr ?_
      show (alookup (ainsert c.wallets n d) c.currentWallet).isSome
      rw [alookup_ainsert]
      by_cases hx : c.currentWallet = n
      · simp [hx]
      · simpa [hx] using hcur
  · show alookup (ainsert c.wallets n d) currentWalletDirName = none
    rw [alookup_ainsert_ne _ _ _ _ hdata]
    exact hI.2.2

theorem recordInv_ainsert_current (c : Config) (n d : String)
    (hn : n ≠ currentWalletDirName) (hI : RecordInv c) :
    RecordInv { c with currentWallet := n, wallets := ainsert c.wallets n d } := by
  have hdata : currentWalletDirName ≠ n := fun hx => hn hx.symm
  refine ⟨Or.inr ?_, hn, ?_⟩
  · show (alookup (ainsert c.wallets n d) n).isSome
    rw [alookup_ainsert_self]
    rfl
  · show alookup (ainsert c.wallets n d) currentWalletDirName = none
    rw [alookup_ainsert_ne _ _ _ _ hdata]
    exact hI.2.2

theorem addWallet_preserves_inv (c : Config) (dirName : String) (ccw : Bool)
    (input : List String) (hI : RecordInv c)
    (h : (addWallet c dirName ccw input).err = none) :
    RecordInv (addWallet c dirName ccw input).config := by
  unfold addWallet at h ⊢
  split at h
  · simp at h
  · rename_i p walletName input1 heq
    have hwn : walletName ≠ currentWalletDirName := by
      by_cases hd : dirName = currentWalletDirName
      · rw [if_pos hd] at heq
        exact nameLoop_ne _ _ _ _ heq
      · rw [if_neg hd] at heq
        simp only [Option.some.injEq, Prod.mk.injEq] at heq
        rw [← heq.1]
        exact hd
    by_cases hc : ccw = true ∧ dirName = currentWalletDirName
    · rw [if_pos hc] at h ⊢
      split at h
      · simp at h
      · rename_i d input2
        exact recordInv_ainsert_current c walletName d hwn hI
    · rw [if_neg hc] at h ⊢
      split at h
      · simp at h
      · rename_i d input2
        exact recordInv_ainsert_keep c walletName d hwn hI

theorem addWallet_false_result (c : Config) (dirName : String) (input : List String)
    (h : (addWallet c dirName false input).err = none) :
    (addWallet c dirName false input).config.currentWallet = c.currentWallet ∧
    ∃ n d, n ≠ currentWalletDirName ∧ (dirName ≠ currentWalletDirName → n = dirName) ∧
      (addWallet c dirName false input).config.wallets = ainsert c.wallets n d := by
  unfold addWallet at h ⊢
  split at h
  · simp at h
  · rename_i p walletName input1 heq
    have hwn : walletName ≠ currentWalletDirName := by
      by_cases hd : dirName = currentWalletDirName
      · rw [if_pos hd] at heq
        exact nameLoop_ne _ _ _ _ heq
      · rw [if_neg hd] at heq
        simp only [Option.some.injEq, Prod.mk.injEq] at heq
        rw [← heq.1]
        exact hd
    have hdir : dirName ≠ currentWalletDirName → walletName = dirName := by
      intro hd
      rw [if_neg hd] at heq
      simp only [Option.some.injEq, Prod.mk.injEq] at heq
      exact heq.1.symm
    have hfc : ¬ ((false : Bool) = true ∧ dirName = currentWalletDirName) := by
      rintro ⟨hx, -⟩
      exact Bool.false_ne_true hx
    rw [if_neg hfc] at h ⊢
    split at h
    · simp at h
    · rename_i d input2
      exact ⟨rfl, walletName, d, hwn, hdir, rfl⟩

/-! ### Invariant preservation for the remaining operations -/

theorem recordInv_edit_current (c : Config) (name nn D : String)
    (hnn : nn ≠ currentWalletDirName) (hname : name ≠ currentWalletDirName)
    (hI : RecordInv c) :
    RecordInv { c with currentWallet := nn, wallets := editApply c.wallets name nn D } := by
  refine ⟨Or.inr ?_, hnn, ?_⟩
  · show (alookup (editApply c.wallets name nn D) nn).isSome
    rw [alookup_editApply, if_neg (fun hx => hx.1 hx.2.symm), if_pos rfl]
    rfl
  · show alookup (editApply c.wallets name nn D) currentWalletDirName = none
    rw [alookup_editApply, if_neg (fun hx => hname hx.2.symm),
        if_neg (fun hy => hnn hy.symm)]
    exact hI.2.2

theorem recordInv_edit_keep (c : Config) (name nn D : String)
    (hnn : nn ≠ currentWalletDirName) (hname : name ≠ currentWalletDirName)
    (hcur : c.currentWallet ≠ name) (hI : RecordInv c) :
    RecordInv { c with wallets := editApply c.wallets name nn D } := by
  refine ⟨?_, hI.2.1, ?_⟩
  · rcases hI.1 with hc | hc
    · exact Or.inl hc
    · refine Or.inr ?_
      show (alookup (editApply c.wallets name nn D) c.currentWallet).isSome
      rw [alookup_editApply, if_neg (fun hx => hcur hx.2)]
      by_cases hx : c.currentWallet = nn
      · rw [if_pos hx]
        rfl
      · rw [if_neg hx]
        exact hc
  · show alookup (editApply c.wallets name nn D) currentWalletDirName = none
    rw [alookup_editApply, if_neg (fun hx => hname hx.2.symm),
        if_neg (fun hy => hnn hy.symm)]
    exact hI.2.2

theorem edit_preserves_inv (c : Config) (fs : FS) (input : List String) (name : String)
    (hI : RecordInv c) (h : (Edit c fs input name).err = none) :
    RecordInv (Edit c fs input name).config := by
  by_cases hmem : (alookup c.wallets name).isNone
  · simp [Edit, hmem] at h
  · have hname : name ≠ currentWalletDirName := by
      intro hx
      rw [hx, hI.2.2] at hmem
      simp at hmem
    simp only [Edit] at h ⊢
    rw [if_neg hmem] at h ⊢
    split at h
    · simp at h
    · rename_i p nn input1 heq
      have hnn : nn ≠ currentWalletDirName := nameLoop_ne _ _ _ _ heq
      split at h
      · simp at h
      · rename_i dRaw rest
        by_cases hc : c.currentWallet = name
        · rw [if_pos hc] at h ⊢
          exact recordInv_edit_current c name nn _ hnn hname hI
        · rw [if_neg hc] at h ⊢
          by_cases he : nn = name
          · rw [if_pos he] at h ⊢
            exact recordInv_edit_keep c name nn _ hnn hname hc hI
          · rw [if_neg he] at h ⊢
            split at h
            · simp at h
            · exact recordInv_edit_keep c name nn _ hnn hname hc hI

theorem aerase_data_none (c : Config) (name : String) (hI : RecordInv c) :
    alookup (aerase c.wallets name) currentWalletDirName = none := by
  rw [alookup_aerase]
  by_cases hx : currentWalletDirName = name
  · rw [if_pos hx]
  · rw [if_neg hx]
    exact hI.2.2

theorem forget_preserves_inv (c : Config) (fs : FS) (name : String)
    (hI : RecordInv c) (h : (Forget c fs name).err = none) :
    RecordInv (Forget c fs name).config := by
  by_cases hmem : (alookup c.wallets name).isNone
  · simp [Forget, hmem] at h
  · unfold Forget at h ⊢
    rw [if_neg hmem] at h ⊢
    by_cases hc : c.currentWallet = name
    · rw [if_pos hc] at h ⊢
      have hI1 : RecordInv { c with wallets := aerase c.wallets name, currentWallet := "" } := by
        refine ⟨Or.inl rfl, ?_, aerase_data_none c name hI⟩
        show ("" : String) ≠ currentWalletDirName
        decide
      split at h
      · simp at h
      · exact switchToFirstWallet_preserves_inv _ _ hI1 h
      · exact switchToFirstWallet_preserves_inv _ _ hI1 h
    · rw [if_neg hc] at h ⊢
      refine ⟨?_, hI.2.1, aerase_data_none c name hI⟩
      rcases hI.1 with hcu | hcu
      · exact Or.inl hcu
      · refine Or.inr ?_
        show (alookup (aerase c.wallets name) c.currentWallet).isSome
        rw [alookup_aerase_ne _ _ _ hc]
        exact hcu

theorem add_preserves_inv (c : Config) (fs : FS) (input : List String) (dirName : String)
    (hI : RecordInv c) (h : (Add c fs input dirName).err = none) :
    RecordInv (Add c fs input dirName).config := by
  have key : ∀ c1 i1, addWallet c dirName false input = ⟨c1, i1, none⟩ →
      (Switch c1 fs dirName).err = none → RecordInv (Switch c1 fs dirName).config := by
    intro c1 i1 heq hsw
    have he : (addWallet c dirName false input).err = none := by rw [heq]
    have h1 := addWallet_preserves_inv c dirName false input hI he
    rw [heq] at h1
    exact switch_preserves_inv c1 fs dirName h1 hsw
  simp only [Add] at h ⊢
  split at h
  · rename_i e heq
    by_cases h1 : ¬ e.isDir
    · rw [if_pos h1] at h
      simp at h
    · rw [if_neg h1] at h ⊢
      by_cases h2 : ¬ isWalletDir fs dirName
      · rw [if_pos h2] at h
        simp at h
      · rw [if_neg h2] at h ⊢
        split at h
        · rename_i c1 i1 heq2
          exact key c1 i1 heq2 h
        · simp at h
  · split at h
    · rename_i c1 i1 heq2
      exact key c1 i1 heq2 h
    · simp at h

theorem remove_preserves_inv (c : Config) (fs : FS) (input : List String) (name : String)
    (hI : RecordInv c) (h : (Remove c fs input name).err = none) :
    RecordInv (Remove c fs input name).config := by
  by_cases hmem : (alookup c.wallets name).isNone
  · simp [Remove, hmem] at h
  · unfold Remove at h ⊢
    rw [if_neg hmem] at h ⊢
    split at h
    · simp at h
    · rename_i conf rest
      by_cases hc : conf = "yes"
      · rw [if_pos hc] at h ⊢
        split at h
        · rename_i c1 fs1 heq
          have hf : (Forget c fs name).err = none := by rw [heq]
          have h1 := forget_preserves_inv c fs name hI hf
          rw [heq] at h1
          exact h1
        · rename_i r heq
          rcases hF : Forget c fs name with ⟨c1, fs1, e⟩
          rw [hF] at h
          cases e with
          | none => exact (heq c1 fs1 hF).elim
          | some e2 => simp at h
      · rw [if_neg hc] at h
        simp at h

theorem initLoop_preserves_inv (dirs : List String) :
    ∀ (c : Config) (input : List String), RecordInv c →
      (initLoop c dirs input).err = none → RecordInv (initLoop c dirs input).config := by
  induction dirs with
  | nil =>
      intro c input hI h
      simpa [initLoop] using hI
  | cons dn rest ih =>
      intro c input hI h
      unfold initLoop at h ⊢
      split at h
      · rename_i c1 i1 heq
        have he : (addWallet c dn true input).err = none := by rw [heq]
        have h1 := addWallet_preserves_inv c dn true input hI he
        rw [heq] at h1
        exact ih c1 i1 h1 h
      · rename_i r heq
        rcases hF : addWallet c dn true input with ⟨c1, i1, e⟩
        rw [hF] at h
        cases e with
        | none => exact (heq c1 i1 hF).elim
        | some e2 => simp at h

theorem init_preserves_inv (c : Config) (fs : FS) (input : List String)
    (h : (Init c fs input).err = none) : RecordInv (Init c fs input).config := by
  have h0 : RecordInv { c with wallets := ([] : List (String × String)), currentWallet := "" } := by
    refine ⟨Or.inl rfl, ?_, rfl⟩
    show ("" : String) ≠ currentWalletDirName
    decide
  simp only [Init] at h ⊢
  split at h
  · rename_i c1 i1 heq
    have he : (initLoop { c with wallets := [], currentWallet := "" }
        (getWallets fs) input).err = none := by rw [heq]
    have h1 := initLoop_preserves_inv (getWallets fs) _ input h0 he
    rw [heq] at h1
    by_cases hc : c1.currentWallet = ""
    · rw [if_pos hc] at h ⊢
      exact switchToFirstWallet_preserves_inv c1 fs h1 h
    · rw [if_neg hc] at h ⊢
      exact h1
  · simp at h

theorem runOp_preserves_inv (o : Op) (c : Config) (fs : FS)
    (hI : RecordInv c) (h : (runOp o c fs).err = none) :
    RecordInv (runOp o c fs).config := by
  cases o with
  | opInit input => exact init_preserves_inv c fs input h
  | opSwitch name => exact switch_preserves_inv c fs name hI h
  | opEdit input name => exact edit_preserves_inv c fs input name hI h
  | opAdd input dirName => exact add_preserves_inv c fs input dirName hI h
  | opForget name => exact forget_preserves_inv c fs name hI h
  | opRemove input name => exact remove_preserves_inv c fs input name hI h

theorem step_preserves_inv (s s' : Config × FS) (hI : RecordInv s.1) (hs : Step s s') :
    RecordInv s'.1 := by
  obtain ⟨o, ho⟩ := hs
  rw [← ho]
  simp only [stepResult]
  rcases he : (runOp o s.1 s.2).err with _ | e
  · simpa using runOp_preserves_inv o s.1 s.2 hI he
  · simpa using hI

/-! ### Claim theorems -/

/-- Claim C2: `Switch` fails with `AlreadyActive` whenever the requested name
equals the current wallet, regardless of any other state, and fails with
`NotFound` whenever the name differs from the current wallet and is not a key
of the wallet map; in either failure case the returned record and directory
layout are the ones passed in, unchanged. -/
theorem switch_failure_cases (c : Config) (fs : FS) (name : String) :
    (c.currentWallet = name →
      Switch c fs name = ⟨c, fs, some (.alreadyActive name)⟩) ∧
    (c.currentWallet ≠ name → alookup c.wallets name = none →
      Switch c fs name = ⟨c, fs, some (.notFound name)⟩) := by
  constructor
  · intro h
    simp [Switch, h]
  · intro h1 h2
    simp [Switch, h1, h2]

theorem switch_failure_cases_witness :
    Switch ⟨"/w", "a", [("a", "x")]⟩ [] "a"
        = ⟨⟨"/w", "a", [("a", "x")]⟩, [], some (.alreadyActive "a")⟩ ∧
    Switch ⟨"/w", "a", [("a", "x")]⟩ [] "b"
        = ⟨⟨"/w", "a", [("a", "x")]⟩, [], some (.notFound "b")⟩ :=
  ⟨(switch_failure_cases ⟨"/w", "a", [("a", "x")]⟩ [] "a").1 rfl,
   (switch_failure_cases ⟨"/w", "a", [("a", "x")]⟩ [] "b").2 (by decide) (by decide)⟩

/-- Claim C5: `Edit` fails with `NotFound` exactly when the requested name is
not a key of the wallet map; on a present key, whatever its description
(including the empty one), no `NotFound` error is ever reported. -/
theorem edit_notfound_characterization (c : Config) (fs : FS) (input : List String)
    (name : String) :
    (alookup c.wallets name = none →
      Edit c fs input name = ⟨c, fs, some (.notFound name)⟩) ∧
    ((alookup c.wallets name).isSome →
      ∀ n2, (Edit c fs input name).err ≠ some (.notFound n2)) := by
  constructor
  · intro h
    simp [Edit, h]
  · intro hs n2
    have hn : ¬ (alookup c.wallets name).isNone := by
      rcases hv : alookup c.wallets name with _ | v
      · rw [hv] at hs
        simp at hs
      · simp
    simp only [Edit]
    rw [if_neg hn]
    split
    · simp
    · rename_i p nn input1 heq
      split
      · simp
      · rename_i dRaw rest
        by_cases hc : c.currentWallet = name
        · rw [if_pos hc]
          simp
        · rw [if_neg hc]
          by_cases he : nn = name
          · rw [if_pos he]
            simp
          · rw [if_neg he]
            split
            · simp
            · simp

theorem edit_notfound_characterization_witness :
    Edit ⟨"/w", "", []⟩ [] [] "a" = ⟨⟨"/w", "", []⟩, [], some (.notFound "a")⟩ ∧
    (Edit ⟨"/w", "a", [("a", "")]⟩ [] ["", ""] "a").err ≠ some (.notFound "a") :=
  ⟨(edit_notfound_characterization ⟨"/w", "", []⟩ [] [] "a").1 rfl,
   (edit_notfound_characterization ⟨"/w", "a", [("a", "")]⟩ [] ["", ""] "a").2 (by decide) "a"⟩

/-- Claim C7: `Remove` of a present wallet with any confirmation input other
than the literal `yes` fails with `Aborted`; the record is unchanged and no
directory is deleted or renamed. -/
theorem remove_nonconfirming_aborts (c : Config) (fs : FS) (name d conf : String)
    (rest : List String) (hmem : alookup c.wallets name = some d)
    (hconf : conf ≠ "yes") :
    Remove c fs (conf :: rest) name = ⟨c, fs, some .aborted⟩ := by
  simp [Remove, hmem, hconf]

theorem remove_nonconfirming_aborts_witness :
    Remove ⟨"/w", "a", [("a", "da")]⟩ [("data", ⟨true, true, 5⟩)] ["no"] "a"
      = ⟨⟨"/w", "a", [("a", "da")]⟩, [("data", ⟨true, true, 5⟩)], some .aborted⟩ :=
  remove_nonconfirming_aborts ⟨"/w", "a", [("a", "da")]⟩ [("data", ⟨true, true, 5⟩)]
    "a" "da" "no" [] (by decide) (by decide)

/-- Claim C9: `Edit` of a present wallet with both interactive prompts
answered empty leaves the record (the map entry keeps its key and
description, the active wallet is untouched) and the directory layout
unchanged. -/
theorem edit_defaults_noop (c : Config) (fs : FS) (name d : String)
    (hmem : alookup c.wallets name = some d) :
    (Edit c fs ["", ""] name).config = c ∧ (Edit c fs ["", ""] name).fs = fs := by
  obtain ⟨w, cur, m⟩ := c
  simp only at hmem
  have hn : ¬ (alookup (Config.mk w cur m).wallets name).isNone := by simp [hmem]
  by_cases hd : name = currentWalletDirName
  · have hnl : nameLoop name ["", ""] = none := by simp [nameLoop, hd]
    simp [Edit, hn, hnl]
  · have hnl : nameLoop name ["", ""] = some (name, [""]) := by simp [nameLoop, hd]
    have happ : editApply m name name d = m := by
      simp only [editApply, if_pos rfl]
      exact ainsert_self m name d hmem
    by_cases hc : cur = name
    · simp [Edit, hn, hnl, hc, hmem, happ]
    · simp [Edit, hn, hnl, hc, hmem, happ]

theorem edit_defaults_noop_witness :
    (Edit ⟨"/w", "a", [("a", "da")]⟩ [("data", ⟨true, true, 3⟩)] ["", ""] "a").config
        = ⟨"/w", "a", [("a", "da")]⟩ ∧
    (Edit ⟨"/w", "a", [("a", "da")]⟩ [("data", ⟨true, true, 3⟩)] ["", ""] "a").fs
        = [("data", ⟨true, true, 3⟩)] :=
  edit_defaults_noop ⟨"/w", "a", [("a", "da")]⟩ [("data", ⟨true, true, 3⟩)] "a" "da" (by decide)

/-- Claim C10: on a record with two distinct non-active wallet keys `a`, `b`
(where `a` has a directory on disk and `b` does not), `Edit` of `a` with the
new-name prompt answered `b` succeeds: `b`'s map entry is overwritten with
`a`'s new description and key `a` is deleted, so the map loses one entry and
`b`'s old description is silently discarded — there is no collision check
against existing wallet names. -/
theorem edit_no_collision_check :
    Edit ⟨"/w", "", [("a", "da"), ("b", "db")]⟩ [("a", ⟨true, true, 1⟩)] ["b", "newdesc"] "a"
      = ⟨⟨"/w", "", [("b", "newdesc")]⟩, [("b", ⟨true, true, 1⟩)], none⟩ := by
  decide

/-- Claim C1: every state reachable from an initialized record by any
sequence of `Init`, `Switch`, `Edit`, `Add`, `Forget` and `Remove`
invocations with arbitrary user inputs (a failed invocation leaves the
persisted record as it was) satisfies the record invariant: the active
wallet is either empty or a key of the wallet map, it never equals the
reserved slot name `data`, and `data` is never a key of the wallet map. -/
theorem reachable_states_satisfy_record_invariant (c0 : Config) (fs0 : FS)
    (input : List String) (s : Config × FS)
    (hok : (Init c0 fs0 input).err = none)
    (hreach : Relation.ReflTransGen Step
      ((Init c0 fs0 input).config, (Init c0 fs0 input).fs) s) :
    RecordInv s.1 := by
  have h0 : RecordInv ((Init c0 fs0 input).config, (Init c0 fs0 input).fs).1 :=
    init_preserves_inv c0 fs0 input hok
  induction hreach with
  | refl => exact h0
  | tail hr hstep ih => exact step_preserves_inv _ _ ih hstep

theorem reachable_states_satisfy_record_invariant_witness :
    (Init ⟨"/w", "q", [("z", "zz")]⟩ [] []).err = none ∧
    RecordInv (Init ⟨"/w", "q", [("z", "zz")]⟩ [] []).config :=
  ⟨by decide,
   reachable_states_satisfy_record_invariant ⟨"/w", "q", [("z", "zz")]⟩ [] []
     ((Init ⟨"/w", "q", [("z", "zz")]⟩ [] []).config,
      (Init ⟨"/w", "q", [("z", "zz")]⟩ [] []).fs)
     (by decide) Relation.ReflTransGen.refl⟩

/-- Claim C4 counterexample: on the record
`{walletsDir := "/w", currentWallet := "", wallets := {"data" ↦ "d"}}` with a
wallet directory at the reserved slot, `Add "data"` with inputs
`["y", "desc"]` succeeds, registers the prompted wallet `"y"`, yet activates
`"data"` (the directory name), not the wallet that was just added. -/
theorem add_data_prompted_name_not_active :
    Add ⟨"/w", "", [("data", "d")]⟩ [("data", ⟨true, true, 7⟩)] ["y", "desc"] "data"
      = ⟨⟨"/w", "data", [("data", "d"), ("y", "desc")]⟩, [("data", ⟨true, true, 7⟩)], none⟩ ∧
    ("y" : String) ≠ "data" := by
  constructor
  · decide
  · decide

/-- Claim C4 amended: on every record in which the reserved slot name is not
a key of the wallet map (the record invariant of C1), a successful
`Add dirName` implies `dirName` is not the reserved name, `dirName` itself is
the wallet that was registered (a key of the resulting map) and it is the
active wallet afterwards; consequently `Add "data"` never succeeds on such
records, so the prompted-rename case never yields a success. -/
theorem add_success_activates_dir (c : Config) (fs : FS) (input : List String)
    (dirName : String) (hno : alookup c.wallets currentWalletDirName = none)
    (h : (Add c fs input dirName).err = none) :
    dirName ≠ currentWalletDirName ∧
    (Add c fs input dirName).config.currentWallet = dirName ∧
    (alookup (Add c fs input dirName).config.wallets dirName).isSome := by
  have key : ∀ c1 i1, addWallet c dirName false input = ⟨c1, i1, none⟩ →
      (Switch c1 fs dirName).err = none →
      dirName ≠ currentWalletDirName ∧
      (Switch c1 fs dirName).config.currentWallet = dirName ∧
      (alookup (Switch c1 fs dirName).config.wallets dirName).isSome := by
    intro c1 i1 heq hsw
    have he : (addWallet c dirName false input).err = none := by rw [heq]
    obtain ⟨hcur, n, d, hnd, hdir, hw⟩ := addWallet_false_result c dirName input he
    rw [heq] at hcur hw
    obtain ⟨hcfg, hmem, hne⟩ := switch_ok_result c1 fs dirName hsw
    have hdn : dirName ≠ currentWalletDirName := by
      intro hx
      rw [hw, hx, alookup_ainsert_ne _ _ _ _ (fun hy => hnd hy.symm), hno] at hmem
      simp at hmem
    refine ⟨hdn, ?_, ?_⟩
    · rw [hcfg]
    · rw [hcfg]
      exact hmem
  simp only [Add] at h ⊢
  split at h
  · rename_i e heq
    by_cases h1 : ¬ e.isDir
    · rw [if_pos h1] at h
      simp at h
    · rw [if_neg h1] at h ⊢
      by_cases h2 : ¬ isWalletDir fs dirName
      · rw [if_pos h2] at h
        simp at h
      · rw [if_neg h2] at h ⊢
        split at h
        · rename_i c1 i1 heq2
          exact key c1 i1 heq2 h
        · simp at h
  · split at h
    · rename_i c1 i1 heq2
      exact key c1 i1 heq2 h
    · simp at h

theorem add_success_activates_dir_witness :
    alookup (⟨"/w", "", []⟩ : Config).wallets currentWalletDirName = none ∧
    (Add ⟨"/w", "", []⟩ [] ["dd"] "alpha").err = none ∧
    ("alpha" : String) ≠ currentWalletDirName ∧
    (Add ⟨"/w", "", []⟩ [] ["dd"] "alpha").config.currentWallet = "alpha" ∧
    (alookup (Add ⟨"/w", "", []⟩ [] ["dd"] "alpha").config.wallets "alpha").isSome :=
  ⟨by decide, by decide,
   add_success_activates_dir ⟨"/w", "", []⟩ [] ["dd"] "alpha" (by decide) (by decide)⟩

/-- Claim C8 counterexample: starting from
`{walletsDir := "/w", currentWallet := "", wallets := {}}` with an empty
wallets root (in particular no directory `alpha`), `Add "alpha"` succeeds
with the expected record, but no directory `data` exists afterwards: the
tolerated rename of the nonexistent source `alpha` is a no-op that creates
nothing, contradicting the claim that `/w/data` exists. -/
theorem add_new_wallet_creates_no_slot_directory :
    (Add ⟨"/w", "", []⟩ [] ["mydesc"] "alpha").err = none ∧
    (Add ⟨"/w", "", []⟩ [] ["mydesc"] "alpha").config
        = ⟨"/w", "alpha", [("alpha", "mydesc")]⟩ ∧
    alookup (Add ⟨"/w", "", []⟩ [] ["mydesc"] "alpha").fs currentWalletDirName = none := by
  refine ⟨by decide, by decide, by decide⟩

/-- Claim C8 amended: starting from
`{walletsDir := "/w", currentWallet := "", wallets := {}}` with no directory
named `alpha`, `Add "alpha"` succeeds, the resulting record maps `alpha` to
the entered description with `alpha` active, and the directory layout is
completely unchanged: `alpha` still does not exist, and `data` exists
afterwards only if it existed before. -/
theorem add_new_wallet_scenario (fs : FS) (d : String)
    (hfa : alookup fs "alpha" = none) :
    Add ⟨"/w", "", []⟩ fs [d] "alpha" = ⟨⟨"/w", "alpha", [("alpha", d)]⟩, fs, none⟩ := by
  have hsw : Switch ⟨"/w", "", [("alpha", d)]⟩ fs "alpha"
      = ⟨⟨"/w", "alpha", [("alpha", d)]⟩, fs, none⟩ := by
    simp [Switch, alookup, rename, hfa]
  simp only [Add]
  rw [hfa]
  exact hsw

theorem add_new_wallet_scenario_witness :
    alookup ([("data", ⟨true, true, 9⟩)] : FS) "alpha" = none ∧
    Add ⟨"/w", "", []⟩ [("data", ⟨true, true, 9⟩)] ["mydesc"] "alpha"
      = ⟨⟨"/w", "alpha", [("alpha", "mydesc")]⟩, [("data", ⟨true, true, 9⟩)], none⟩ :=
  ⟨by decide, add_new_wallet_scenario [("data", ⟨true, true, 9⟩)] "mydesc" (by decide)⟩

/-- Claim C6: `Forget` of the active wallet when it is the only key of the
wallet map succeeds, clears the active wallet, empties the map, and moves
the reserved slot directory back under the wallet's own name when the slot
directory exists (the wallet's directory reappears under its own name),
tolerating a missing slot directory (in which case the layout is
unchanged). -/
theorem forget_only_active_wallet (c : Config) (fs : FS) (name d : String)
    (hcur : c.currentWallet = name) (hw : c.wallets = [(name, d)])
    (hnd : name ≠ currentWalletDirName) (hfn : alookup fs name = none) :
    (∀ e, alookup fs currentWalletDirName = some e →
       Forget c fs name
         = ⟨⟨c.walletsDir, "", []⟩, ainsert (aerase fs currentWalletDirName) name e, none⟩ ∧
       alookup (Forget c fs name).fs name = some e) ∧
    (alookup fs currentWalletDirName = none →
       Forget c fs name = ⟨⟨c.walletsDir, "", []⟩, fs, none⟩) := by
  obtain ⟨w, cur, m⟩ := c
  simp only at hcur hw hfn
  subst hw
  have hdn : ¬ currentWalletDirName = name := fun h => hnd h.symm
  constructor
  · intro e hde
    have hF : Forget (Config.mk w cur [(name, d)]) fs name
        = ⟨⟨w, "", []⟩, ainsert (aerase fs currentWalletDirName) name e, none⟩ := by
      simp [Forget, alookup, rename, hcur, hde, hfn, hdn, aerase, switchToFirstWallet]
    refine ⟨hF, ?_⟩
    rw [hF]
    exact alookup_ainsert_self _ _ _
  · intro hde
    simp [Forget, alookup, rename, hcur, hde, hfn, hdn, aerase, switchToFirstWallet]

theorem forget_only_active_wallet_witness :
    Forget ⟨"/w", "a", [("a", "da")]⟩ [("data", ⟨true, true, 5⟩)] "a"
      = ⟨⟨"/w", "", []⟩, [("a", ⟨true, true, 5⟩)], none⟩ := by
  have h := (forget_only_active_wallet ⟨"/w", "a", [("a", "da")]⟩
    [("data", ⟨true, true, 5⟩)] "a" "da" rfl rfl (by decide) (by decide)).1
    ⟨true, true, 5⟩ (by decide)
  rw [h.1]
  decide

/-- Claim C3: on a record with two distinct wallets `a` and `b`, `a` active
with its directory at the reserved slot and `b`'s directory present under its
own name (and no directory named `a`), `Switch` to `b` renames `data` to `a`
and `b` to `data` (moving exactly those entries) and sets the active wallet
to `b`; switching back to `a` afterwards restores the record and the
directory layout to their pre-switch arrangement. -/
theorem switch_roundtrip (c : Config) (fs : FS) (a b : String) (e1 e2 : Entry)
    (hcur : c.currentWallet = a)
    (ha : (alookup c.wallets a).isSome) (hb : (alookup c.wallets b).isSome)
    (hab : a ≠ b) (hanz : a ≠ "") (hbnz : b ≠ "")
    (had : a ≠ currentWalletDirName) (hbd : b ≠ currentWalletDirName)
    (hfa : alookup fs a = none)
    (hfd : alookup fs currentWalletDirName = some e1)
    (hfb : alookup fs b = some e2) :
    ∃ fs1, Switch c fs b = ⟨{ c with currentWallet := b }, fs1, none⟩ ∧
      alookup fs1 a = some e1 ∧
      alookup fs1 currentWalletDirName = some e2 ∧
      alookup fs1 b = none ∧
      (∀ n, n ≠ a → n ≠ b → n ≠ currentWalletDirName → alookup fs1 n = alookup fs n) ∧
      ∃ fs2, Switch { c with currentWallet := b } fs1 a = ⟨c, fs2, none⟩ ∧
        ∀ n, alookup fs2 n = alookup fs n := by
  have hba : b ≠ a := fun h => hab h.symm
  have hda : ¬ currentWalletDirName = a := fun h => had h.symm
  have hdb : ¬ currentWalletDirName = b := fun h => hbd h.symm
  have hann : (alookup c.wallets a).isNone = false := by
    rcases hv : alookup c.wallets a with _ | v
    · rw [hv] at ha
      simp at ha
    · rfl
  have hbnn : (alookup c.wallets b).isNone = false := by
    rcases hv : alookup c.wallets b with _ | v
    · rw [hv] at hb
      simp at hb
    · rfl
  have hren1 : rename fs currentWalletDirName a
      = Except.ok (ainsert (aerase fs currentWalletDirName) a e1) := by
    simp [rename, hfd, hfa, hda]
  have hAa : alookup (ainsert (aerase fs currentWalletDirName) a e1) a = some e1 :=
    alookup_ainsert_self _ _ _
  have hAb : alookup (ainsert (aerase fs currentWalletDirName) a e1) b = some e2 := by
    rw [alookup_ainsert_ne _ _ _ _ hba, alookup_aerase_ne _ _ _ hbd]
    exact hfb
  have hAd : alookup (ainsert (aerase fs currentWalletDirName) a e1)
      currentWalletDirName = none := by
    rw [alookup_ainsert_ne _ _ _ _ hda, alookup_aerase_self]
  have hren2 : rename (ainsert (aerase fs currentWalletDirName) a e1) b currentWalletDirName
      = Except.ok (ainsert (aerase (ainsert (aerase fs currentWalletDirName) a e1) b)
          currentWalletDirName e2) := by
    simp [rename, hAb, hAd, hbd]
  refine ⟨ainsert (aerase (ainsert (aerase fs currentWalletDirName) a e1) b)
      currentWalletDirName e2, ?_, ?_, ?_, ?_, ?_, ?_⟩
  · simp [Switch, hcur, hab, hanz, hbnn, hren1, hren2]
  · rw [alookup_ainsert_ne _ _ _ _ had, alookup_aerase_ne _ _ _ hab]
    exact hAa
  · exact alookup_ainsert_self _ _ _
  · rw [alookup_ainsert_ne _ _ _ _ hbd, alookup_aerase_self]
  · intro n hna hnb hnd
    rw [alookup_ainsert_ne _ _ _ _ hnd, alookup_aerase_ne _ _ _ hnb,
        alookup_ainsert_ne _ _ _ _ hna, alookup_aerase_ne _ _ _ hnd]
  · -- the switch back
    have hBa : alookup (ainsert (aerase (ainsert (aerase fs currentWalletDirName) a e1) b)
        currentWalletDirName e2) a = some e1 := by
      rw [alookup_ainsert_ne _ _ _ _ had, alookup_aerase_ne _ _ _ hab]
      exact hAa
    have hBd : alookup (ainsert (aerase (ainsert (aerase fs currentWalletDirName) a e1) b)
        currentWalletDirName e2) currentWalletDirName = some e2 :=
      alookup_ainsert_self _ _ _
    have hBb : alookup (ainsert (aerase (ainsert (aerase fs currentWalletDirName) a e1) b)
        currentWalletDirName e2) b = none := by
      rw [alookup_ainsert_ne _ _ _ _ hbd, alookup_aerase_self]
    have hren3 : rename (ainsert (aerase (ainsert (aerase fs currentWalletDirName) a e1) b)
        currentWalletDirName e2) currentWalletDirName b
        = Except.ok (ainsert (aerase (ainsert (aerase (ainsert
            (aerase fs currentWalletDirName) a e1) b) currentWalletDirName e2)
            currentWalletDirName) b e2) := by
      simp [rename, hBd, hBb, hdb]
    have hCa : alookup (ainsert (aerase (ainsert (aerase (ainsert
        (aerase fs currentWalletDirName) a e1) b) currentWalletDirName e2)
        currentWalletDirName) b e2) a = some e1 := by
      rw [alookup_ainsert_ne _ _ _ _ hab, alookup_aerase_ne _ _ _ had]
      exact hBa
    have hCd : alookup (ainsert (aerase (ainsert (aerase (ainsert
        (aerase fs currentWalletDirName) a e1) b) currentWalletDirName e2)
        currentWalletDirName) b e2) currentWalletDirName = none := by
      rw [alookup_ainsert_ne _ _ _ _ hdb, alookup_aerase_self]
    have hren4 : rename (ainsert (aerase (ainsert (aerase (ainsert
        (aerase fs currentWalletDirName) a e1) b) currentWalletDirName e2)
        currentWalletDirName) b e2) a currentWalletDirName
        = Except.ok (ainsert (aerase (ainsert (aerase (ainsert (aerase (ainsert
            (aerase fs currentWalletDirName) a e1) b) currentWalletDirName e2)
            currentWalletDirName) b e2) a) currentWalletDirName e1) := by
      simp [rename, hCa, hCd, had]
    refine ⟨ainsert (aerase (ainsert (aerase (ainsert (aerase (ainsert
        (aerase fs currentWalletDirName) a e1) b) currentWalletDirName e2)
        currentWalletDirName) b e2) a) currentWalletDirName e1, ?_, ?_⟩
    · have hc2 : ({ c with currentWallet := a } : Config) = c := by rw [← hcur]
      have hgoal : Switch { c with currentWallet := b }
          (ainsert (aerase (ainsert (aerase fs currentWalletDirName) a e1) b)
            currentWalletDirName e2) a
          = ⟨{ c with currentWallet := a }, ainsert (aerase (ainsert (aerase (ainsert
              (aerase (ainsert (aerase fs currentWalletDirName) a e1) b)
              currentWalletDirName e2) currentWalletDirName) b e2) a)
              currentWalletDirName e1, none⟩ := by
        simp [Switch, hba, hbnz, hann, hren3, hren4]
      rw [hgoal, hc2]
    · intro n
      by_cases hnd : n = currentWalletDirName
      · rw [hnd, alookup_ainsert_self, hfd]
      · by_cases hna : n = a
        · rw [hna, alookup_ainsert_ne _ _ _ _ had, alookup_aerase_self, hfa]
        · by_cases hnb : n = b
          · rw [hnb, alookup_ainsert_ne _ _ _ _ hbd, alookup_aerase_ne _ _ _ hba,
                alookup_ainsert_self, hfb]
          · rw [alookup_ainsert_ne _ _ _ _ hnd, alookup_aerase_ne _ _ _ hna,
                alookup_ainsert_ne _ _ _ _ hnb, alookup_aerase_ne _ _ _ hnd,
                alookup_ainsert_ne _ _ _ _ hnd, alookup_aerase_ne _ _ _ hnb,
                alookup_ainsert_ne _ _ _ _ hna, alookup_aerase_ne _ _ _ hnd]

theorem switch_roundtrip_witness :
    ∃ fs1, Switch ⟨"/w", "a", [("a", "da"), ("b", "db")]⟩
        [("data", ⟨true, true, 1⟩), ("b", ⟨true, true, 2⟩)] "b"
        = ⟨⟨"/w", "b", [("a", "da"), ("b", "db")]⟩, fs1, none⟩ ∧
      alookup fs1 "a" = some ⟨true, true, 1⟩ ∧
      alookup fs1 currentWalletDirName = some ⟨true, true, 2⟩ ∧
      alookup fs1 "b" = none ∧
      (∀ n, n ≠ "a" → n ≠ "b" → n ≠ currentWalletDirName →
        alookup fs1 n = alookup ([("data", ⟨true, true, 1⟩), ("b", ⟨true, true, 2⟩)] : FS) n) ∧
      ∃ fs2, Switch ⟨"/w", "b", [("a", "da"), ("b", "db")]⟩ fs1 "a"
          = ⟨⟨"/w", "a", [("a", "da"), ("b", "db")]⟩, fs2, none⟩ ∧
        ∀ n, alookup fs2 n
          = alookup ([("data", ⟨true, true, 1⟩), ("b", ⟨true, true, 2⟩)] : FS) n :=
  switch_roundtrip ⟨"/w", "a", [("a", "da"), ("b", "db")]⟩
    [("data", ⟨true, true, 1⟩), ("b", ⟨true, true, 2⟩)] "a" "b"
    ⟨true, true, 1⟩ ⟨true, true, 2⟩ rfl (by decide) (by decide) (by decide) (by decide)
    (by decide) (by decide) (by decide) (by decide) (by decide) (by decide)

end TonWalletSwitcher
